import Mathlib

/-!
Shallow embedding of the shop-ranking engine of `app/api/endpoints/bag.py`:
the core function `calculate_shop_totals_for_products` (lines 61–135) and the
category-aggregation stage of `calculate_best_shop` (lines 191–219).

Python values are modelled as follows.  A shop's offer record — a Python dict
that may hold the keys `"price"`, `"available"` and `"images"` — is a structure
of `Option` fields where `none` means the key is absent; such a dict is truthy
iff it is non-empty.  Price values are classified by whether Python `float()`
accepts them (`PValue.num q`, the numeric value idealised as a rational) or
raises (`PValue.nonNumeric`), so the computation is an `Except String`.
-/

/-- A Python value stored under the `"price"` key, classified by whether
`float()` accepts it: numeric values (ints, floats, numeric strings) carry
their rational value; on any other value `float()` raises `ValueError`. -/
inductive PValue where
  | num (q : ℚ)
  | nonNumeric
deriving DecidableEq, Repr

/-- One shop's offer record for one product: a Python dict that may hold the
keys `"price"` (whose stored value may itself be `None`), `"available"` and
`"images"`.  An `Option` field is `none` when the key is absent. -/
structure ShopData where
  price : Option (Option PValue) := none
  available : Option Bool := none
  images : Option (List String) := none
deriving DecidableEq, Repr

/-- Python truthiness of the offer dict: it is truthy iff non-empty. -/
def ShopData.truthy (d : ShopData) : Bool :=
  d.price.isSome || d.available.isSome || d.images.isSome

/-- Truthiness of an optional offer dict (`None` is falsy). -/
def optTruthy : Option ShopData → Bool
  | none => false
  | some d => d.truthy

/-- Python `x or y` on optional offer dicts: `x` when truthy, else `y`. -/
def pyOr (x y : Option ShopData) : Option ShopData :=
  if optTruthy x then x else y

/-- Python `s.replace(c, d)` for single-character arguments: replace every
occurrence of the character `c` by `d`. -/
def replaceChar (c d : Char) (s : String) : String :=
  String.mk (s.data.map (fun x => if x = c then d else x))

/-- A normalized product record handed to the ranking engine: sku, title and
the per-shop offer map (a Python dict, modelled as an association list whose
keys are unique). -/
structure Product where
  sku : String
  title : String
  shops : List (String × ShopData)
deriving DecidableEq, Repr

/-- Python `dict.get(k)` on the per-shop offer map. -/
def dictGet (m : List (String × ShopData)) (k : String) : Option ShopData :=
  match m.find? (fun kv => kv.1 == k) with
  | some kv => some kv.2
  | none => none

/-- Line 74: `shops_data.get(shop) or shops_data.get(shop.replace("-", "_"))
or shops_data.get(shop.replace("_", "-"))`. -/
def lookupShopData (shops_data : List (String × ShopData)) (shop : String) :
    Option ShopData :=
  pyOr (pyOr (dictGet shops_data shop) (dictGet shops_data (replaceChar '-' '_' shop)))
    (dictGet shops_data (replaceChar '_' '-' shop))

/-- Per-product presentation record (the `ProductInShop` pydantic model). -/
structure ProductInShop where
  sku : String
  title : String
  image : Option String
  price : Option ℚ
  available : Bool
deriving DecidableEq, Repr

/-- Per-shop result (the `ShopTotal` pydantic model). -/
structure ShopTotal where
  shop : String
  total : ℚ
  products : List ProductInShop
  available_count : ℕ
  missing_count : ℕ
deriving DecidableEq, Repr

/-- The accumulator state of the inner loop of
`calculate_shop_totals_for_products` (lines 66–69). -/
structure ShopAcc where
  total : ℚ
  products_in_shop : List ProductInShop
  available_count : ℕ
  missing_count : ℕ
deriving DecidableEq, Repr

/-- Nearest integer, ties to even — the rounding mode of Python `round`. -/
def roundHalfEven (q : ℚ) : ℤ :=
  if q - ⌊q⌋ < 1/2 then ⌊q⌋
  else if 1/2 < q - ⌊q⌋ then ⌊q⌋ + 1
  else if ⌊q⌋ % 2 = 0 then ⌊q⌋ else ⌊q⌋ + 1

/-- Python `round(x, 3)`: round to 3 fractional digits, ties to even. -/
def round3 (q : ℚ) : ℚ := (roundHalfEven (q * 1000) : ℚ) / 1000

/-- Lines 97–106: the branch taken when the product has no usable offer at
this shop — record a priceless, unavailable presentation entry and count the
product as missing. -/
def missingStep (acc : ShopAcc) (product : Product) : ShopAcc :=
  ⟨acc.total, acc.products_in_shop ++ [⟨product.sku, product.title, none, none, false⟩],
    acc.available_count, acc.missing_count + 1⟩

/-- Lines 71–106: process one product for the current shop.
`float(shop_data["price"])` raises on a non-numeric value, so the step is
fallible. -/
def processProduct (shop : String) (acc : ShopAcc) (product : Product) :
    Except String ShopAcc :=
  match lookupShopData product.shops shop with
  | some d =>
    if d.truthy then
      match d.price.getD none with
      | some (.num q) =>
        let available := d.available.getD true
        let images := d.images.getD []
        let image := images.head?
        let entry : ProductInShop := ⟨product.sku, product.title, image, some q, available⟩
        if available then
          .ok ⟨acc.total + q, acc.products_in_shop ++ [entry],
            acc.available_count + 1, acc.missing_count⟩
        else
          .ok ⟨acc.total, acc.products_in_shop ++ [entry],
            acc.available_count, acc.missing_count + 1⟩
      | some .nonNumeric => .error "ValueError"
      | none => .ok (missingStep acc product)
    else .ok (missingStep acc product)
  | none => .ok (missingStep acc product)

/-- Lines 65–106: the inner loop over `products` for one shop, starting from
zeroed accumulators. -/
def processShop (products : List Product) (shop : String) : Except String ShopAcc :=
  products.foldlM (processProduct shop) ⟨0, [], 0, 0⟩

/-- Lines 65–115: the outer loop over `shop_list`, emitting a `ShopTotal` for
each shop that has at least one available product. -/
def emitShops (products : List Product) : List String → Except String (List ShopTotal)
  | [] => .ok []
  | shop :: rest => do
    let acc ← processShop products shop
    let tail ← emitShops products rest
    if 0 < acc.available_count then
      .ok (⟨shop, round3 acc.total, acc.products_in_shop,
        acc.available_count, acc.missing_count⟩ :: tail)
    else
      .ok tail

/-- Line 118's sort key `(missing_count, total)`, as a boolean lexicographic
order. -/
def keyLE (a b : ShopTotal) : Bool :=
  decide (a.missing_count < b.missing_count) ||
    (decide (a.missing_count = b.missing_count) && decide (a.total ≤ b.total))

/-- Lines 120–133: scan the sorted list for the first shop covering every
item, else fall back to the head of the sorted list. -/
def findBest (shop_totals : List ShopTotal) : Option String × Option ℚ :=
  match shop_totals.find? (fun st => st.missing_count == 0 && decide (0 < st.available_count)) with
  | some st => (some st.shop, some st.total)
  | none =>
    match shop_totals with
    | [] => (none, none)
    | st :: _ => (some st.shop, some st.total)

/-- Lines 61–135: `calculate_shop_totals_for_products`.  Returns the sorted
`ShopTotal` list together with the best shop and its total. -/
def calculate_shop_totals_for_products (products : List Product) (shop_list : List String) :
    Except String (List ShopTotal × Option String × Option ℚ) := do
  let emitted ← emitShops products shop_list
  let sorted := emitted.mergeSort keyLE
  let best := findBest sorted
  .ok (sorted, best.1, best.2)

/-- The `CategoryResult` pydantic model; `products` holds the (sku, title)
pairs of line 203/214. -/
structure CategoryResult where
  category : String
  category_label : String
  best_shop : Option String
  best_total : Option ℚ
  shop_totals : List ShopTotal
  products : List (String × String)
deriving DecidableEq, Repr

/-- The `BestShopResponse` pydantic model. -/
structure BestShopResponse where
  para_result : Option CategoryResult
  retail_result : Option CategoryResult
deriving DecidableEq, Repr

/-- Line 10. -/
def PARA_SHOPS : List String := ["parashop", "pharma-shop", "parafendri"]

/-- Line 11. -/
def RETAIL_SHOPS : List String := ["mytek", "tunisianet", "spacenet"]

/-- Lines 191–219 of `calculate_best_shop`: the category-aggregation stage,
taking as input the product lists already resolved from the two databases by
the preceding plumbing. -/
def calculate_best_shop (para_products retail_products : List Product) :
    Except String BestShopResponse := do
  let para_result ←
    if para_products.isEmpty then pure none
    else do
      let r ← calculate_shop_totals_for_products para_products PARA_SHOPS
      pure (some (⟨"para", "Parapharmacie", r.2.1, r.2.2, r.1,
        para_products.map (fun p => (p.sku, p.title))⟩ : CategoryResult))
  let retail_result ←
    if retail_products.isEmpty then pure none
    else do
      let r ← calculate_shop_totals_for_products retail_products RETAIL_SHOPS
      pure (some (⟨"retail", "Électronique", r.2.1, r.2.2, r.1,
        retail_products.map (fun p => (p.sku, p.title))⟩ : CategoryResult))
  .ok ⟨para_result, retail_result⟩

/-- The spec's lookup rule, stated from its words: "look up the exact key
first, then each variant, first match wins" — the first *present* key among
the exact spelling, the hyphen→underscore variant and the underscore→hyphen
variant. -/
def specFirstMatchLookup (shops_data : List (String × ShopData)) (shop : String) :
    Option ShopData :=
  match dictGet shops_data shop with
  | some d => some d
  | none =>
    match dictGet shops_data (replaceChar '-' '_' shop) with
    | some d => some d
    | none => dictGet shops_data (replaceChar '_' '-' shop)

/-- The line-76 guard `shop_data and shop_data.get("price") is not None` as a
boolean predicate on a product and a shop: the product has a usable offer. -/
def usableOffer (p : Product) (shop : String) : Bool :=
  match lookupShopData p.shops shop with
  | some d => d.truthy && (d.price.getD none).isSome
  | none => false

/-- The presentation entry the inner loop records for one product at one
shop, as a total function (the value in the non-numeric-price case is
irrelevant: there the loop raises instead of recording an entry). -/
def entryOf (shop : String) (p : Product) : ProductInShop :=
  match lookupShopData p.shops shop with
  | some d =>
    if d.truthy then
      match d.price.getD none with
      | some (.num q) =>
        ⟨p.sku, p.title, (d.images.getD []).head?, some q, d.available.getD true⟩
      | some .nonNumeric => ⟨p.sku, p.title, none, none, false⟩
      | none => ⟨p.sku, p.title, none, none, false⟩
    else ⟨p.sku, p.title, none, none, false⟩
  | none => ⟨p.sku, p.title, none, none, false⟩

theorem exceptBind_ok {α β : Type} {x : Except String α} {f : α → Except String β} {b : β} :
    x >>= f = .ok b ↔ ∃ a, x = .ok a ∧ f a = .ok b := by
  cases x <;> simp [Bind.bind, Except.bind]

theorem emitShops_cons {products : List Product} {shop : String} {rest : List String} :
    emitShops products (shop :: rest) =
      processShop products shop >>= fun acc =>
        emitShops products rest >>= fun tail =>
          if 0 < acc.available_count then
            .ok (⟨shop, round3 acc.total, acc.products_in_shop,
              acc.available_count, acc.missing_count⟩ :: tail)
          else
            .ok tail := rfl

/-- Every emitted `ShopTotal` comes from the accumulator of a shop in the
candidate list whose `available_count` is positive. -/
theorem emitShops_mem {products : List Product} :
    ∀ {shops : List String} {l : List ShopTotal},
      emitShops products shops = .ok l → ∀ st ∈ l,
        st.shop ∈ shops ∧ ∃ acc : ShopAcc, processShop products st.shop = .ok acc ∧
          0 < acc.available_count ∧
          st = ⟨st.shop, round3 acc.total, acc.products_in_shop, acc.available_count,
            acc.missing_count⟩ := by
  intro shops
  induction shops with
  | nil =>
    intro l h st hst
    simp only [emitShops] at h
    cases h
    simp at hst
  | cons shop rest ih =>
    intro l h st hst
    rw [emitShops_cons] at h
    obtain ⟨acc, hacc, h2⟩ := exceptBind_ok.mp h
    obtain ⟨tail, htail, h3⟩ := exceptBind_ok.mp h2
    split at h3
    · cases h3
      rcases List.mem_cons.mp hst with hst | hst
      · subst hst
        exact ⟨List.mem_cons_self _ _, acc, hacc, by assumption, rfl⟩
      · obtain ⟨hmem, acc', h⟩ := ih htail st hst
        exact ⟨List.mem_cons_of_mem _ hmem, acc', h⟩
    · cases h3
      obtain ⟨hmem, acc', h⟩ := ih htail st hst
      exact ⟨List.mem_cons_of_mem _ hmem, acc', h⟩

theorem processShop_nil_products {shop : String} :
    processShop [] shop = .ok ⟨0, [], 0, 0⟩ := rfl

theorem emitShops_nil_products : ∀ shops : List String, emitShops [] shops = .ok [] := by
  intro shops
  induction shops with
  | nil => rfl
  | cons shop rest ih =>
    rw [emitShops_cons, processShop_nil_products, ih]
    rfl

/-- Inversion for the top-level function: the result is the sorted emitted
list together with the best-shop selection over it. -/
theorem calc_ok_elim {products : List Product} {shop_list : List String}
    {r : List ShopTotal × Option String × Option ℚ}
    (h : calculate_shop_totals_for_products products shop_list = .ok r) :
    ∃ emitted, emitShops products shop_list = .ok emitted ∧
      r = (emitted.mergeSort keyLE, (findBest (emitted.mergeSort keyLE)).1,
        (findBest (emitted.mergeSort keyLE)).2) := by
  unfold calculate_shop_totals_for_products at h
  obtain ⟨emitted, he, hok⟩ := exceptBind_ok.mp h
  cases hok
  exact ⟨emitted, he, rfl⟩

/-- A successful step of the inner loop appends exactly the entry `entryOf`
and bumps the accumulators according to that entry's availability flag. -/
theorem processProduct_ok {shop : String} {acc acc' : ShopAcc} {p : Product}
    (h : processProduct shop acc p = .ok acc') :
    acc' = ⟨acc.total + (if (entryOf shop p).available then (entryOf shop p).price.getD 0 else 0),
      acc.products_in_shop ++ [entryOf shop p],
      acc.available_count + (if (entryOf shop p).available then 1 else 0),
      acc.missing_count + (if (entryOf shop p).available then 0 else 1)⟩ := by
  unfold processProduct at h
  unfold entryOf
  cases hl : lookupShopData p.shops shop with
  | none =>
    rw [hl] at h
    cases h
    simp [missingStep]
  | some d =>
    rw [hl] at h
    by_cases ht : d.truthy
    · simp only [ht, if_true] at h ⊢
      cases hp : d.price.getD none with
      | none =>
        rw [hp] at h
        cases h
        simp [missingStep]
      | some pv =>
        cases pv with
        | num q =>
          rw [hp] at h
          simp only at h
          cases hav : d.available.getD true
          · simp only [hav, Bool.false_eq_true, if_false] at h ⊢
            cases h
            simp
          · simp only [hav, if_true] at h ⊢
            cases h
            simp
        | nonNumeric =>
          rw [hp] at h
          simp at h
    · simp only [ht, Bool.false_eq_true, if_false] at h ⊢
      cases h
      simp [missingStep]

/-- If an entry produced by the inner loop is flagged available, it carries a
price. -/
theorem entryOf_price_or_unavailable (shop : String) (p : Product) :
    ((entryOf shop p).price.isSome = true) ∨ ((entryOf shop p).available = false) := by
  unfold entryOf
  split
  · split
    · split
      · left; rfl
      · right; rfl
      · right; rfl
    · right; rfl
  · right; rfl

theorem entryOf_available_isSome {shop : String} {p : Product}
    (h : (entryOf shop p).available = true) : (entryOf shop p).price.isSome :=
  (entryOf_price_or_unavailable shop p).resolve_right (by simp [h])

/-- `entryOf` keeps the product's sku and title in every branch. -/
theorem entryOf_sku_title (shop : String) (p : Product) :
    (entryOf shop p).sku = p.sku ∧ (entryOf shop p).title = p.title := by
  unfold entryOf
  split
  · split
    · split <;> simp
    · simp
  · simp

/-- A product with no usable offer at a shop gets the priceless, unavailable
presentation entry there. -/
theorem entryOf_not_usable {shop : String} {p : Product}
    (h : usableOffer p shop = false) :
    entryOf shop p = ⟨p.sku, p.title, none, none, false⟩ := by
  unfold usableOffer at h
  unfold entryOf
  split
  · rename_i d hd
    rw [hd] at h
    split
    · rename_i ht
      simp only [ht, Bool.true_and] at h
      split
      · rename_i q hq
        rw [hq] at h
        simp at h
      · rfl
      · rfl
    · rfl
  · rfl

/-- Invariant of the inner loop: a successful fold over the products appends
one `entryOf` entry per product, counts available and unavailable entries,
and sums the prices of the available entries. -/
theorem foldl_processProduct_spec {shop : String} {products : List Product} :
    ∀ {acc₀ acc : ShopAcc},
      List.foldlM (processProduct shop) acc₀ products = .ok acc →
      acc.products_in_shop = acc₀.products_in_shop ++ products.map (entryOf shop) ∧
      acc.available_count = acc₀.available_count +
        (products.map (entryOf shop)).countP (fun e => e.available) ∧
      acc.missing_count = acc₀.missing_count +
        (products.map (entryOf shop)).countP (fun e => !e.available) ∧
      acc.total = acc₀.total +
        (((products.map (entryOf shop)).filter (fun e => e.available)).filterMap
          (fun e => e.price)).sum := by
  induction products with
  | nil =>
    intro acc₀ acc h
    simp only [List.foldlM_nil] at h
    cases h
    simp
  | cons p ps ih =>
    intro acc₀ acc h
    rw [List.foldlM_cons] at h
    obtain ⟨a1, ha1, hrest⟩ := exceptBind_ok.mp h
    have hstep := processProduct_ok ha1
    subst hstep
    obtain ⟨h1, h2, h3, h4⟩ := ih hrest
    cases hav : (entryOf shop p).available
    · refine ⟨?_, ?_, ?_, ?_⟩
      · simp only [h1]; simp [hav]
      · simp only [h2]; simp [hav, List.countP_cons]
      · simp only [h3]; simp [hav, List.countP_cons]; omega
      · simp only [h4]; simp [hav, List.filter_cons]
    · obtain ⟨q, hq⟩ := Option.isSome_iff_exists.mp (entryOf_available_isSome hav)
      refine ⟨?_, ?_, ?_, ?_⟩
      · simp only [h1]; simp [hav]
      · simp only [h2]; simp [hav, List.countP_cons]; omega
      · simp only [h3]; simp [hav, List.countP_cons]
      · simp only [h4]; simp [hav, List.filter_cons, List.filterMap_cons, hq]; ring

/-- Specification of the inner loop from the zeroed accumulators. -/
theorem processShop_spec {products : List Product} {shop : String} {acc : ShopAcc}
    (h : processShop products shop = .ok acc) :
    acc.products_in_shop = products.map (entryOf shop) ∧
    acc.available_count = (products.map (entryOf shop)).countP (fun e => e.available) ∧
    acc.missing_count = (products.map (entryOf shop)).countP (fun e => !e.available) ∧
    acc.total = (((products.map (entryOf shop)).filter (fun e => e.available)).filterMap
      (fun e => e.price)).sum := by
  have h' := @foldl_processProduct_spec shop products ⟨0, [], 0, 0⟩ acc h
  simpa using h'

theorem keyLE_trans (a b c : ShopTotal) (h1 : keyLE a b) (h2 : keyLE b c) : keyLE a c := by
  simp only [keyLE, Bool.or_eq_true, Bool.and_eq_true, decide_eq_true_eq] at h1 h2 ⊢
  rcases h1 with h1 | ⟨h1e, h1t⟩ <;> rcases h2 with h2 | ⟨h2e, h2t⟩
  · left; omega
  · left; omega
  · left; omega
  · right; exact ⟨by omega, le_trans h1t h2t⟩

theorem keyLE_total (a b : ShopTotal) : keyLE a b || keyLE b a := by
  simp only [keyLE, Bool.or_eq_true, Bool.and_eq_true, decide_eq_true_eq]
  rcases Nat.lt_trichotomy a.missing_count b.missing_count with h | h | h
  · left; left; exact h
  · rcases le_total a.total b.total with ht | ht
    · left; right; exact ⟨h, ht⟩
    · right; right; exact ⟨h.symm, ht⟩
  · right; left; exact h

/-- Stability of the line-118 sort: the entries carrying any fixed sort key
appear in the sorted list exactly as they appear in the emitted list. -/
theorem mergeSort_filter_key (l : List ShopTotal) (m : ℕ) (t : ℚ) :
    (l.mergeSort keyLE).filter (fun st => st.missing_count == m && st.total == t) =
      l.filter (fun st => st.missing_count == m && st.total == t) := by
  set p : ShopTotal → Bool := fun st => st.missing_count == m && st.total == t with hp
  have hkey : ∀ x, p x = true → x.missing_count = m ∧ x.total = t := by
    intro x hx
    simp only [hp, Bool.and_eq_true, beq_iff_eq] at hx
    exact hx
  have hpw : (l.filter p).Pairwise (fun a b => keyLE a b = true) := by
    apply List.pairwise_of_forall_mem_list
    intro x hx y hy
    obtain ⟨hxm, hxt⟩ := hkey x (List.of_mem_filter hx)
    obtain ⟨hym, hyt⟩ := hkey y (List.of_mem_filter hy)
    simp only [keyLE, Bool.or_eq_true, Bool.and_eq_true, decide_eq_true_eq]
    right
    constructor
    · rw [hxm, hym]
    · rw [hxt, hyt]
  have hsub : List.Sublist (l.filter p) (l.mergeSort keyLE) :=
    List.sublist_mergeSort keyLE_trans keyLE_total hpw (List.filter_sublist l)
  have hsub2 : List.Sublist (l.filter p) ((l.mergeSort keyLE).filter p) := by
    have h' := hsub.filter p
    rwa [List.filter_filter, (by funext a; cases p a <;> rfl :
      (fun a => p a && p a) = p)] at h'
  have hperm : List.Perm ((l.mergeSort keyLE).filter p) (l.filter p) :=
    (List.mergeSort_perm l keyLE).filter p
  exact (hsub2.eq_of_length hperm.length_eq.symm).symm

theorem find?_congr_mem {α : Type} {l : List α} {p q : α → Bool}
    (h : ∀ a ∈ l, p a = q a) : l.find? p = l.find? q := by
  induction l with
  | nil => rfl
  | cons a l ih =>
    have ha := h a (List.mem_cons_self a l)
    simp only [List.find?_cons, ha]
    split
    · rfl
    · exact ih (fun b hb => h b (List.mem_cons_of_mem a hb))

/-- Evaluation helper: once the emitted list is known, the top-level result
is its sorted version together with the best-shop selection. -/
theorem calc_eval {products : List Product} {shop_list : List String}
    {emitted : List ShopTotal}
    (he : emitShops products shop_list = .ok emitted) :
    calculate_shop_totals_for_products products shop_list =
      .ok (emitted.mergeSort keyLE, (findBest (emitted.mergeSort keyLE)).1,
        (findBest (emitted.mergeSort keyLE)).2) := by
  unfold calculate_shop_totals_for_products
  rw [he]
  rfl

/-- C3: no `ShopTotal` with `available_count = 0` ever appears in the output
of `calculate_shop_totals_for_products` — every returned entry has
`available_count ≥ 1` — and an empty products list yields an empty
`shop_totals` list with an absent best shop and best total. -/
theorem shopTotals_exclusion_invariant (products : List Product) (shop_list : List String)
    (r : List ShopTotal × Option String × Option ℚ)
    (h : calculate_shop_totals_for_products products shop_list = .ok r) :
    (∀ st ∈ r.1, 1 ≤ st.available_count) ∧
    (products = [] → r = ([], none, none)) := by
  obtain ⟨emitted, he, hr⟩ := calc_ok_elim h
  subst hr
  constructor
  · intro st hst
    have hmem := List.mem_mergeSort.mp hst
    obtain ⟨-, acc, -, hpos, hsteq⟩ := emitShops_mem he st hmem
    rw [hsteq]
    exact hpos
  · intro hempty
    subst hempty
    rw [emitShops_nil_products shop_list] at he
    cases he
    simp [findBest]

theorem shopTotals_exclusion_invariant_witness :
    calculate_shop_totals_for_products [] ["X"] = .ok ([], none, none) ∧
    ((∀ st ∈ ([] : List ShopTotal), 1 ≤ st.available_count) ∧
      (([] : List Product) = [] →
        (([], none, none) : List ShopTotal × Option String × Option ℚ) = ([], none, none))) := by
  have hcalc : calculate_shop_totals_for_products [] ["X"] = .ok ([], none, none) := by
    have h := @calc_eval ([] : List Product) ["X"] [] rfl
    simpa [findBest] using h
  exact ⟨hcalc, shopTotals_exclusion_invariant [] ["X"] ([], none, none) hcalc⟩

/-- C1: the best-shop selection of `calculate_shop_totals_for_products` is
the first entry of the sorted list with `missing_count = 0`; if no entry has
`missing_count = 0`, the first entry of the sorted list overall; and when the
emitted list is empty both the best shop and the best total are `none`. -/
theorem bestShop_selection (products : List Product) (shop_list : List String)
    (r : List ShopTotal × Option String × Option ℚ)
    (h : calculate_shop_totals_for_products products shop_list = .ok r) :
    match r.1.find? (fun st => st.missing_count == 0) with
    | some st => r.2 = (some st.shop, some st.total)
    | none =>
      match r.1 with
      | [] => r.2 = (none, none)
      | st :: _ => r.2 = (some st.shop, some st.total) := by
  obtain ⟨emitted, he, hr⟩ := calc_ok_elim h
  subst hr
  have hpos : ∀ st ∈ emitted.mergeSort keyLE, 0 < st.available_count := by
    intro st hst
    have hmem := List.mem_mergeSort.mp hst
    obtain ⟨-, acc, -, hp, hsteq⟩ := emitShops_mem he st hmem
    rw [hsteq]
    exact hp
  have hfind : (emitted.mergeSort keyLE).find? (fun st => st.missing_count == 0) =
      (emitted.mergeSort keyLE).find?
        (fun st => st.missing_count == 0 && decide (0 < st.available_count)) := by
    apply find?_congr_mem
    intro a ha
    have hp := hpos a ha
    simp [hp]
  simp only [hfind]
  unfold findBest
  cases hf : (emitted.mergeSort keyLE).find?
      (fun st => st.missing_count == 0 && decide (0 < st.available_count)) with
  | some st => simp
  | none =>
    cases hs : emitted.mergeSort keyLE with
    | nil => simp
    | cons st rest => simp

/-- A concrete offer, product, presentation entry and shop total used by the
witnesses below.  The total is kept in the exact shape the accumulators build
(`round3 (0 + 10)`), which `exTotalQ_eq` evaluates. -/
def exOffer10 : ShopData := { price := some (some (.num 10)), available := some true }

def exProduct : Product := ⟨"p1", "t1", [("X", exOffer10)]⟩

def exEntry : ProductInShop := ⟨"p1", "t1", none, some 10, true⟩

def exTotalQ : ℚ := round3 (0 + 10)

def exShopTotal : ShopTotal := ⟨"X", exTotalQ, [exEntry], 1, 0⟩

theorem exTotalQ_eq : exTotalQ = 10 := by
  norm_num [exTotalQ, round3, roundHalfEven]

theorem exCalc_eq : calculate_shop_totals_for_products [exProduct] ["X"] =
    .ok ([exShopTotal], some "X", some exTotalQ) := by
  have he : emitShops [exProduct] ["X"] = .ok [exShopTotal] := rfl
  have h2 := calc_eval he
  rw [List.mergeSort_singleton] at h2
  exact h2

theorem bestShop_selection_witness :
    calculate_shop_totals_for_products [exProduct] ["X"] =
      .ok ([exShopTotal], some "X", some exTotalQ) ∧
    ((([exShopTotal], some "X", some exTotalQ) :
      List ShopTotal × Option String × Option ℚ).2 =
        (some exShopTotal.shop, some exShopTotal.total)) :=
  ⟨exCalc_eq, bestShop_selection [exProduct] ["X"] _ exCalc_eq⟩

/-- C2: the returned `shop_totals` list is sorted by the key
`(missing_count, total)` lexicographically — an entry missing fewer items
always comes first regardless of totals, lower total wins among equal
missing-counts — and the sort is stable: the entries carrying any given key
appear exactly as in the emitted (input-shop-order) list. -/
theorem shopTotals_sorted_stable (products : List Product) (shop_list : List String)
    (emitted : List ShopTotal) (r : List ShopTotal × Option String × Option ℚ)
    (he : emitShops products shop_list = .ok emitted)
    (h : calculate_shop_totals_for_products products shop_list = .ok r) :
    r.1.Pairwise (fun a b => a.missing_count ≤ b.missing_count ∧
      (a.missing_count = b.missing_count → a.total ≤ b.total)) ∧
    ∀ m t, r.1.filter (fun st => st.missing_count == m && st.total == t) =
      emitted.filter (fun st => st.missing_count == m && st.total == t) := by
  obtain ⟨emitted', he', hr⟩ := calc_ok_elim h
  rw [he] at he'
  cases he'
  subst hr
  constructor
  · have hs := List.sorted_mergeSort keyLE_trans keyLE_total emitted
    refine List.Pairwise.imp ?_ hs
    intro a b hab
    simp only [keyLE, Bool.or_eq_true, Bool.and_eq_true, decide_eq_true_eq] at hab
    rcases hab with hlt | ⟨heq, hle⟩
    · exact ⟨Nat.le_of_lt hlt, fun hc => absurd hc (by omega)⟩
    · exact ⟨Nat.le_of_eq heq, fun _ => hle⟩
  · intro m t
    exact mergeSort_filter_key emitted m t

theorem shopTotals_sorted_stable_witness :
    emitShops [exProduct] ["X"] = .ok [exShopTotal] ∧
    calculate_shop_totals_for_products [exProduct] ["X"] =
      .ok ([exShopTotal], some "X", some exTotalQ) ∧
    (([exShopTotal] : List ShopTotal).Pairwise (fun a b => a.missing_count ≤ b.missing_count ∧
      (a.missing_count = b.missing_count → a.total ≤ b.total)) ∧
    ∀ m t, ([exShopTotal] : List ShopTotal).filter
        (fun st => st.missing_count == m && st.total == t) =
      ([exShopTotal] : List ShopTotal).filter
        (fun st => st.missing_count == m && st.total == t)) := by
  have he : emitShops [exProduct] ["X"] = .ok [exShopTotal] := rfl
  exact ⟨he, exCalc_eq,
    shopTotals_sorted_stable [exProduct] ["X"] [exShopTotal] _ he exCalc_eq⟩

/-- C7: the `total` of every returned `ShopTotal` is the sum of the prices of
its available presentation entries, rounded to 3 fractional digits; and a
zero sum rounds to zero. -/
theorem shopTotal_total_rounded (products : List Product) (shop_list : List String)
    (r : List ShopTotal × Option String × Option ℚ)
    (h : calculate_shop_totals_for_products products shop_list = .ok r) :
    (∀ st ∈ r.1, st.total = round3 (((st.products.filter (fun e => e.available)).filterMap
      (fun e => e.price)).sum)) ∧ round3 0 = 0 := by
  obtain ⟨emitted, he, hr⟩ := calc_ok_elim h
  subst hr
  constructor
  · intro st hst
    have hmem := List.mem_mergeSort.mp hst
    obtain ⟨-, acc, hacc, -, hsteq⟩ := emitShops_mem he st hmem
    obtain ⟨hprod, -, -, htot⟩ := processShop_spec hacc
    have hstp : st.products = acc.products_in_shop := by rw [hsteq]
    have hstt : st.total = round3 acc.total := by rw [hsteq]
    rw [hstt, hstp, htot, hprod]
  · norm_num [round3, roundHalfEven]

theorem shopTotal_total_rounded_witness :
    calculate_shop_totals_for_products [exProduct] ["X"] =
      .ok ([exShopTotal], some "X", some exTotalQ) ∧
    ((∀ st ∈ ([exShopTotal] : List ShopTotal),
      st.total = round3 (((st.products.filter (fun e => e.available)).filterMap
        (fun e => e.price)).sum)) ∧ round3 0 = 0) :=
  ⟨exCalc_eq, shopTotal_total_rounded [exProduct] ["X"] _ exCalc_eq⟩

theorem countP_avail_add_not (l : List ProductInShop) :
    l.countP (fun e => e.available) + l.countP (fun e => !e.available) = l.length := by
  induction l with
  | nil => rfl
  | cons e l ih => cases hae : e.available <;> simp [List.countP_cons, hae] <;> omega

/-- C9: every returned `ShopTotal` carries exactly one presentation entry per
input product, in input order (same sku and title position by position), so
`available_count + missing_count` is the number of products,
`missing_count` counts the unavailable entries, and a product with no usable
offer at any candidate shop appears as `available = false` with no price. -/
theorem presentation_one_entry_per_product (products : List Product) (shop_list : List String)
    (r : List ShopTotal × Option String × Option ℚ)
    (h : calculate_shop_totals_for_products products shop_list = .ok r) :
    ∀ st ∈ r.1,
      st.products.length = products.length ∧
      st.available_count + st.missing_count = products.length ∧
      st.missing_count = st.products.countP (fun e => !e.available) ∧
      (∀ i : ℕ, st.products[i]?.map (fun e => e.sku) = products[i]?.map (fun p => p.sku) ∧
        st.products[i]?.map (fun e => e.title) = products[i]?.map (fun p => p.title)) ∧
      (∀ i : ℕ, ∀ p : Product, products[i]? = some p →
        (∀ s ∈ shop_list, usableOffer p s = false) →
        st.products[i]? = some ⟨p.sku, p.title, none, none, false⟩) := by
  obtain ⟨emitted, he, hr⟩ := calc_ok_elim h
  subst hr
  intro st hst
  have hmem := List.mem_mergeSort.mp hst
  obtain ⟨hshop, acc, hacc, -, hsteq⟩ := emitShops_mem he st hmem
  obtain ⟨hprod, hav, hmiss, -⟩ := processShop_spec hacc
  have hstp : st.products = acc.products_in_shop := by rw [hsteq]
  have hsta : st.available_count = acc.available_count := by rw [hsteq]
  have hstm : st.missing_count = acc.missing_count := by rw [hsteq]
  refine ⟨?_, ?_, ?_, ?_, ?_⟩
  · rw [hstp, hprod, List.length_map]
  · rw [hsta, hstm, hav, hmiss]
    rw [← List.length_map products (entryOf st.shop)]
    exact countP_avail_add_not _
  · rw [hstm, hmiss, hstp, hprod]
  · intro i
    rw [hstp, hprod, List.getElem?_map]
    cases hpi : products[i]? with
    | none => exact ⟨rfl, rfl⟩
    | some p =>
      exact ⟨by simp [(entryOf_sku_title st.shop p).1],
        by simp [(entryOf_sku_title st.shop p).2]⟩
  · intro i p hpi hnouse
    rw [hstp, hprod, List.getElem?_map, hpi]
    show some (entryOf st.shop p) = _
    rw [entryOf_not_usable (hnouse st.shop hshop)]

theorem presentation_one_entry_per_product_witness :
    calculate_shop_totals_for_products [exProduct] ["X"] =
      .ok ([exShopTotal], some "X", some exTotalQ) ∧
    (∀ st ∈ ([exShopTotal] : List ShopTotal),
      st.products.length = [exProduct].length ∧
      st.available_count + st.missing_count = [exProduct].length ∧
      st.missing_count = st.products.countP (fun e => !e.available) ∧
      (∀ i : ℕ, st.products[i]?.map (fun e => e.sku) =
          ([exProduct] : List Product)[i]?.map (fun p => p.sku) ∧
        st.products[i]?.map (fun e => e.title) =
          ([exProduct] : List Product)[i]?.map (fun p => p.title)) ∧
      (∀ i : ℕ, ∀ p : Product, ([exProduct] : List Product)[i]? = some p →
        (∀ s ∈ ["X"], usableOffer p s = false) →
        st.products[i]? = some ⟨p.sku, p.title, none, none, false⟩)) :=
  ⟨exCalc_eq, presentation_one_entry_per_product [exProduct] ["X"] _ exCalc_eq⟩

/-- C6: an offer that matches the shop and has a numeric price but
`available = false` bumps `missing_count` and leaves the running total and
`available_count` unchanged, while the presentation entry still records the
price with `available = false`; only when the availability flag evaluates to
true is the price added to the total and `available_count` bumped. -/
theorem unavailable_priced_offer (shop : String) (acc : ShopAcc) (p : Product)
    (d : ShopData) (q : ℚ)
    (hl : lookupShopData p.shops shop = some d) (ht : d.truthy = true)
    (hp : d.price.getD none = some (.num q)) :
    (d.available = some false →
      processProduct shop acc p = .ok ⟨acc.total,
        acc.products_in_shop ++ [⟨p.sku, p.title, (d.images.getD []).head?, some q, false⟩],
        acc.available_count, acc.missing_count + 1⟩) ∧
    (d.available.getD true = true →
      processProduct shop acc p = .ok ⟨acc.total + q,
        acc.products_in_shop ++ [⟨p.sku, p.title, (d.images.getD []).head?, some q, true⟩],
        acc.available_count + 1, acc.missing_count⟩) := by
  constructor
  · intro hav
    unfold processProduct
    rw [hl]
    simp [ht, hp, hav]
  · intro hav
    unfold processProduct
    rw [hl]
    simp [ht, hp, hav]

def exOfferUnav : ShopData := { price := some (some (.num 7)), available := some false }

def exProductUnav : Product := ⟨"p2", "t2", [("X", exOfferUnav)]⟩

theorem unavailable_priced_offer_witness :
    lookupShopData exProductUnav.shops "X" = some exOfferUnav ∧
    exOfferUnav.truthy = true ∧
    exOfferUnav.price.getD none = some (.num 7) ∧
    ((exOfferUnav.available = some false →
      processProduct "X" ⟨0, [], 0, 0⟩ exProductUnav = .ok ⟨0,
        [⟨"p2", "t2", (exOfferUnav.images.getD []).head?, some 7, false⟩], 0, 1⟩) ∧
    (exOfferUnav.available.getD true = true →
      processProduct "X" ⟨0, [], 0, 0⟩ exProductUnav = .ok ⟨0 + 7,
        [⟨"p2", "t2", (exOfferUnav.images.getD []).head?, some 7, true⟩], 1, 0⟩)) :=
  ⟨rfl, rfl, rfl,
    unavailable_priced_offer "X" ⟨0, [], 0, 0⟩ exProductUnav exOfferUnav 7 rfl rfl rfl⟩

/-- C10: an offer that matches the shop and has a numeric price but no
`available` key at all is treated as available — the price is added to the
total, `available_count` is bumped and the entry is flagged available. -/
theorem missing_available_key_defaults_true (shop : String) (acc : ShopAcc) (p : Product)
    (d : ShopData) (q : ℚ)
    (hl : lookupShopData p.shops shop = some d) (ht : d.truthy = true)
    (hp : d.price.getD none = some (.num q)) (hav : d.available = none) :
    processProduct shop acc p = .ok ⟨acc.total + q,
      acc.products_in_shop ++ [⟨p.sku, p.title, (d.images.getD []).head?, some q, true⟩],
      acc.available_count + 1, acc.missing_count⟩ := by
  unfold processProduct
  rw [hl]
  simp [ht, hp, hav]

def exOfferNoAvail : ShopData := { price := some (some (.num 3)) }

def exProductNoAvail : Product := ⟨"p3", "t3", [("X", exOfferNoAvail)]⟩

theorem missing_available_key_defaults_true_witness :
    lookupShopData exProductNoAvail.shops "X" = some exOfferNoAvail ∧
    exOfferNoAvail.truthy = true ∧
    exOfferNoAvail.price.getD none = some (.num 3) ∧
    exOfferNoAvail.available = none ∧
    processProduct "X" ⟨0, [], 0, 0⟩ exProductNoAvail = .ok ⟨0 + 3,
      [⟨"p3", "t3", (exOfferNoAvail.images.getD []).head?, some 3, true⟩], 1, 0⟩ :=
  ⟨rfl, rfl, rfl, rfl,
    missing_available_key_defaults_true "X" ⟨0, [], 0, 0⟩ exProductNoAvail exOfferNoAvail 3
      rfl rfl rfl rfl⟩

def exOfferNeg : ShopData := { price := some (some (.num (-5))), available := some true }

def exProductNeg : Product := ⟨"p1", "t1", [("X", exOfferNeg)]⟩

def exOfferNaN : ShopData := { price := some (some .nonNumeric) }

def exProductNaN : Product := ⟨"p1", "t1", [("X", exOfferNaN)]⟩

/-- C4 counterexample: an offer with the negative price `-5` is *not*
treated as missing — the entry records the price, the product counts as
available and the price is added to the total — and an offer with a
non-numeric price raises (`float` fails) instead of being treated as
missing. -/
theorem negative_price_counterexample :
    processProduct "X" ⟨0, [], 0, 0⟩ exProductNeg =
      .ok ⟨0 + (-5), [⟨"p1", "t1", none, some (-5), true⟩], 1, 0⟩ ∧
    processProduct "X" ⟨0, [], 0, 0⟩ exProductNeg ≠
      .ok (missingStep ⟨0, [], 0, 0⟩ exProductNeg) ∧
    calculate_shop_totals_for_products [exProductNaN] ["X"] = .error "ValueError" := by
  have h1 : processProduct "X" ⟨0, [], 0, 0⟩ exProductNeg =
      .ok ⟨0 + (-5), [⟨"p1", "t1", none, some (-5), true⟩], 1, 0⟩ := rfl
  refine ⟨h1, ?_, rfl⟩
  rw [h1]
  intro hcontra
  simp [missingStep] at hcontra

/-- C4 amended: a negative numeric price is processed exactly like any other
numeric price — the presentation entry records it, and it is added to the
total with `available_count` bumped when the offer is available, or counted
missing with the price still recorded when it is not — while a non-numeric
price value makes the computation fail with a `ValueError` that propagates,
rather than being treated as "no price". -/
theorem negative_or_nonNumeric_price_amended (shop : String) (acc : ShopAcc) (p : Product)
    (d : ShopData)
    (hl : lookupShopData p.shops shop = some d) (ht : d.truthy = true) :
    (∀ q : ℚ, q < 0 → d.price.getD none = some (.num q) →
      (d.available.getD true = true →
        processProduct shop acc p = .ok ⟨acc.total + q,
          acc.products_in_shop ++ [⟨p.sku, p.title, (d.images.getD []).head?, some q, true⟩],
          acc.available_count + 1, acc.missing_count⟩) ∧
      (d.available.getD true = false →
        processProduct shop acc p = .ok ⟨acc.total,
          acc.products_in_shop ++ [⟨p.sku, p.title, (d.images.getD []).head?, some q, false⟩],
          acc.available_count, acc.missing_count + 1⟩)) ∧
    (d.price.getD none = some .nonNumeric →
      processProduct shop acc p = .error "ValueError") := by
  refine ⟨?_, ?_⟩
  · intro q _ hp
    constructor
    · intro hav
      unfold processProduct
      rw [hl]
      simp [ht, hp, hav]
    · intro hav
      unfold processProduct
      rw [hl]
      simp [ht, hp, hav]
  · intro hp
    unfold processProduct
    rw [hl]
    simp [ht, hp]

theorem negative_or_nonNumeric_price_amended_witness :
    lookupShopData exProductNeg.shops "X" = some exOfferNeg ∧
    exOfferNeg.truthy = true ∧
    (-5 : ℚ) < 0 ∧
    exOfferNeg.price.getD none = some (.num (-5)) ∧
    exOfferNeg.available.getD true = true ∧
    processProduct "X" ⟨0, [], 0, 0⟩ exProductNeg = .ok ⟨0 + (-5),
      [⟨"p1", "t1", (exOfferNeg.images.getD []).head?, some (-5), true⟩], 1, 0⟩ :=
  ⟨rfl, rfl, by norm_num, rfl, rfl,
    ((negative_or_nonNumeric_price_amended "X" ⟨0, [], 0, 0⟩ exProductNeg exOfferNeg
      rfl rfl).1 (-5) (by norm_num) rfl).1 rfl⟩

def emptyOffer : ShopData := {}

def pharmaOffer : ShopData := { price := some (some (.num 5)), available := some true }

def pharmaShops : List (String × ShopData) := [("pharma-shop", emptyOffer), ("pharma_shop", pharmaOffer)]

def pharmaProduct : Product := ⟨"p1", "t1", pharmaShops⟩

/-- C5 counterexample: when the exact key `"pharma-shop"` is present but maps
to an empty offer record, the code does *not* use it — the Python `or` chain
skips falsy values — and instead uses the underscore variant, so the product
counts as available at price 5; under the claim's exact-key-first rule the
empty exact-key offer would be used and the product would be missing. -/
theorem lookup_exact_first_counterexample :
    lookupShopData pharmaShops "pharma-shop" = some pharmaOffer ∧
    specFirstMatchLookup pharmaShops "pharma-shop" = some emptyOffer ∧
    lookupShopData pharmaShops "pharma-shop" ≠
      specFirstMatchLookup pharmaShops "pharma-shop" ∧
    calculate_shop_totals_for_products [pharmaProduct] ["pharma-shop"] =
      .ok ([⟨"pharma-shop", round3 (0 + 5), [⟨"p1", "t1", none, some 5, true⟩], 1, 0⟩],
        some "pharma-shop", some (round3 (0 + 5))) := by
  refine ⟨rfl, rfl, ?_, ?_⟩
  · intro hcontra
    rw [show lookupShopData pharmaShops "pharma-shop" = some pharmaOffer from rfl,
      show specFirstMatchLookup pharmaShops "pharma-shop" = some emptyOffer from rfl] at hcontra
    simp [pharmaOffer, emptyOffer] at hcontra
  · have he : emitShops [pharmaProduct] ["pharma-shop"] =
        .ok [⟨"pharma-shop", round3 (0 + 5), [⟨"p1", "t1", none, some 5, true⟩], 1, 0⟩] := rfl
    have h2 := calc_eval he
    rw [List.mergeSort_singleton] at h2
    exact h2

/-- C5 amended: the offer used is the first lookup yielding a truthy
(non-empty) offer record, trying the exact key, then the hyphen→underscore
variant, then the underscore→hyphen variant; a key present with an empty
offer record is skipped in favour of the later variants; and when no lookup
yields a truthy offer the product is handled by the missing branch. -/
theorem lookup_variant_amended (m : List (String × ShopData)) (s : String) :
    (∀ d, dictGet m s = some d → d.truthy = true → lookupShopData m s = some d) ∧
    (optTruthy (dictGet m s) = false →
      ∀ d, dictGet m (replaceChar '-' '_' s) = some d → d.truthy = true →
        lookupShopData m s = some d) ∧
    (optTruthy (dictGet m s) = false →
      optTruthy (dictGet m (replaceChar '-' '_' s)) = false →
      lookupShopData m s = dictGet m (replaceChar '_' '-' s)) ∧
    (optTruthy (lookupShopData m s) = false →
      ∀ (acc : ShopAcc) (sku title : String),
        processProduct s acc ⟨sku, title, m⟩ = .ok (missingStep acc ⟨sku, title, m⟩)) := by
  refine ⟨?_, ?_, ?_, ?_⟩
  · intro d hd ht
    unfold lookupShopData pyOr
    rw [hd]
    simp [optTruthy, ht]
  · intro hf d hd ht
    unfold lookupShopData pyOr
    rw [hf]
    simp only [Bool.false_eq_true, if_false]
    rw [hd]
    simp [optTruthy, ht]
  · intro hf1 hf2
    unfold lookupShopData pyOr
    rw [hf1]
    simp only [Bool.false_eq_true, if_false]
    rw [hf2]
    simp
  · intro hfl acc sku title
    unfold processProduct
    have hps : (⟨sku, title, m⟩ : Product).shops = m := rfl
    rw [hps]
    cases hl : lookupShopData m s with
    | none => rfl
    | some d =>
      rw [hl] at hfl
      simp only [optTruthy] at hfl
      simp [hfl]

theorem lookup_variant_amended_witness :
    optTruthy (dictGet [("pharma_shop", pharmaOffer)] "pharma-shop") = false ∧
    dictGet [("pharma_shop", pharmaOffer)] (replaceChar '-' '_' "pharma-shop") =
      some pharmaOffer ∧
    pharmaOffer.truthy = true ∧
    lookupShopData [("pharma_shop", pharmaOffer)] "pharma-shop" = some pharmaOffer :=
  ⟨rfl, rfl, rfl,
    (lookup_variant_amended [("pharma_shop", pharmaOffer)] "pharma-shop").2.1 rfl
      pharmaOffer rfl rfl⟩

/-- C8: in the category-aggregation stage a category's result is absent
exactly when its resolved product list is empty — an empty category yields
`none`, a category with at least one product yields a `CategoryResult`. -/
theorem category_absent_iff_empty (para_products retail_products : List Product)
    (resp : BestShopResponse)
    (h : calculate_best_shop para_products retail_products = .ok resp) :
    (para_products = [] ↔ resp.para_result = none) ∧
    (retail_products = [] ↔ resp.retail_result = none) := by
  unfold calculate_best_shop at h
  cases para_products with
  | nil =>
    cases retail_products with
    | nil =>
      simp only [List.isEmpty_nil, if_true] at h
      cases h
      simp
    | cons r rs =>
      simp only [List.isEmpty_nil, List.isEmpty_cons, if_true, Bool.false_eq_true,
        if_false] at h
      obtain ⟨pr, hpr, h2⟩ := exceptBind_ok.mp h
      cases hpr
      obtain ⟨rr, hrr, h3⟩ := exceptBind_ok.mp h2
      obtain ⟨rc, hrc, h4⟩ := exceptBind_ok.mp hrr
      cases h4
      cases h3
      simp
  | cons p ps =>
    cases retail_products with
    | nil =>
      simp only [List.isEmpty_nil, List.isEmpty_cons, if_true, Bool.false_eq_true,
        if_false] at h
      obtain ⟨pr, hpr, h2⟩ := exceptBind_ok.mp h
      obtain ⟨pc, hpc, h4⟩ := exceptBind_ok.mp hpr
      cases h4
      obtain ⟨rr, hrr, h3⟩ := exceptBind_ok.mp h2
      cases hrr
      cases h3
      simp
    | cons r rs =>
      simp only [List.isEmpty_cons, Bool.false_eq_true, if_false] at h
      obtain ⟨pc, hpc, h2⟩ := exceptBind_ok.mp h
      obtain ⟨pr, hpr, h3⟩ := exceptBind_ok.mp h2
      cases hpr
      obtain ⟨rc, hrc, h4⟩ := exceptBind_ok.mp h3
      obtain ⟨rr, hrr, h5⟩ := exceptBind_ok.mp h4
      cases hrr
      cases h5
      simp

theorem category_absent_iff_empty_witness :
    calculate_best_shop [exProduct] [] =
      .ok ⟨some ⟨"para", "Parapharmacie", none, none, [], [("p1", "t1")]⟩, none⟩ ∧
    (([exProduct] = ([] : List Product)) ↔
      ((⟨some ⟨"para", "Parapharmacie", none, none, [], [("p1", "t1")]⟩, none⟩ :
        BestShopResponse).para_result = none)) ∧
    ((([] : List Product) = []) ↔
      ((⟨some ⟨"para", "Parapharmacie", none, none, [], [("p1", "t1")]⟩, none⟩ :
        BestShopResponse).retail_result = none)) := by
  have he : emitShops [exProduct] PARA_SHOPS = .ok [] := rfl
  have hcalc : calculate_shop_totals_for_products [exProduct] PARA_SHOPS =
      .ok ([], none, none) := by
    have h2 := calc_eval he
    simpa [findBest] using h2
  have hbs : calculate_best_shop [exProduct] [] =
      .ok ⟨some ⟨"para", "Parapharmacie", none, none, [], [("p1", "t1")]⟩, none⟩ := by
    unfold calculate_best_shop
    simp only [List.isEmpty_cons, List.isEmpty_nil, Bool.false_eq_true, if_false, if_true]
    rw [hcalc]
    rfl
  exact ⟨hbs, category_absent_iff_empty [exProduct] [] _ hbs⟩
